import Mathlib

/-!
Verification development for the cdx_toolkit repository.

Python strings are modelled as `List Char` (slicing becomes `take`/`drop`),
Python ints as `Int`/`Nat`, floats that only ever hold whole seconds as `Int`,
wall-clock rationals as `Rat`, dicts of optional parameters as structures of
`Option` fields, and raising code as `Option`/`Except` results.  Mutation of
caller-supplied lists is modelled by returning the post-state of those lists.
-/

/-! ## timeutils.py -/

/-- TIMESTAMP_LOW from timeutils.py. -/
def TIMESTAMP_LOW : List Char := "19780101000000".toList

/-- TIMESTAMP_HIGH from timeutils.py. -/
def TIMESTAMP_HIGH : List Char := "29991231235959".toList

/-- days_in_month from timeutils.py: fixed table, February always 28. -/
def days_in_month : List Nat := [0, 31, 28, 31, 30, 31, 30, 31, 31, 30, 31, 30, 31]

/-- pad_timestamp from timeutils.py: right-pad with TIMESTAMP_LOW. -/
def pad_timestamp (ts : List Char) : List Char :=
  ts ++ TIMESTAMP_LOW.drop ts.length

/-- Python int(s) on a decimal-digit string; ValueError (empty or non-digit) is none. -/
def strToNat (s : List Char) : Option Nat :=
  if s ≠ [] ∧ s.all Char.isDigit then
    some (s.foldl (fun acc c => 10 * acc + (c.toNat - ('0').toNat)) 0)
  else none

/-- pad_timestamp_up from timeutils.py: right-pad with TIMESTAMP_HIGH, then
overwrite the day-of-month characters with str(days_in_month[int(month)]).
A month outside the table raises IndexError and a non-digit month raises
ValueError; both are modelled as none. -/
def pad_timestamp_up (ts : List Char) : Option (List Char) :=
  let ts2 := ts ++ TIMESTAMP_HIGH.drop ts.length
  match strToNat ((ts2.drop 4).take 2) with
  | none => none
  | some month =>
    match days_in_month.get? month with
    | none => none
    | some d => some (ts2.take 6 ++ (toString d).toList ++ ts2.drop 8)

/-- Gregorian leap year, as validated by datetime.strptime. -/
def is_leap (y : Nat) : Bool := y % 4 = 0 ∧ (y % 100 ≠ 0 ∨ y % 400 = 0)

/-- Number of days of month m in year y on the real calendar (used by strptime
validation, unlike the fixed days_in_month table). -/
def days_in_month_real (y m : Nat) : Nat :=
  if m = 2 ∧ is_leap y then 29 else days_in_month.getD m 0

/-- Days since 1970-01-01 of the Gregorian date y-m-d (standard civil-date
algorithm, valid for years ≥ 1583 which covers the modelled domain). -/
def days_from_civil (y m d : Nat) : Nat :=
  let y2 := if m ≤ 2 then y - 1 else y
  let era := y2 / 400
  let yoe := y2 % 400
  let mp := (m + 9) % 12
  let doy := (153 * mp + 2) / 5 + d - 1
  let doe := yoe * 365 + yoe / 4 - yoe / 100 + doy
  era * 146097 + doe - 719468

/-- Inverse of days_from_civil: the Gregorian date of day z since 1970-01-01. -/
def civil_from_days (z : Nat) : Nat × Nat × Nat :=
  let z2 := z + 719468
  let era := z2 / 146097
  let doe := z2 % 146097
  let yoe := (doe - doe / 1460 + doe / 36524 - doe / 146096) / 365
  let y := yoe + era * 400
  let doy := doe - (365 * yoe + yoe / 4 - yoe / 100)
  let mp := (5 * doy + 2) / 153
  let d := doy - (153 * mp + 2) / 5 + 1
  let m := if mp < 10 then mp + 3 else mp - 9
  (if m ≤ 2 then y + 1 else y, m, d)

/-- timestamp_to_time from timeutils.py: pad with TIMESTAMP_LOW, parse with
strptime %Y%m%d%H%M%S as UTC, return the unix epoch.  Parse and validation
failures (either ValueError raise path) are none.  The model covers epochs
from 1970 on, which includes every timestamp reachable in the claims. -/
def timestamp_to_time (ts : List Char) : Option Int :=
  let p := pad_timestamp ts
  if p.length = 14 ∧ p.all Char.isDigit then
    match strToNat (p.take 4), strToNat ((p.drop 4).take 2), strToNat ((p.drop 6).take 2),
          strToNat ((p.drop 8).take 2), strToNat ((p.drop 10).take 2), strToNat ((p.drop 12).take 2) with
    | some y, some mo, some d, some h, some mi, some s =>
      if 1970 ≤ y ∧ 1 ≤ mo ∧ mo ≤ 12 ∧ 1 ≤ d ∧ d ≤ days_in_month_real y mo ∧
         h ≤ 23 ∧ mi ≤ 59 ∧ s ≤ 59 then
        some ((days_from_civil y mo d * 86400 + h * 3600 + mi * 60 + s : Nat) : Int)
      else none
    | _, _, _, _, _, _ => none
  else none

/-- Zero-padded decimal rendering of width w (strftime field). -/
def padNum (w n : Nat) : List Char :=
  let s := (toString n).toList
  List.replicate (w - s.length) '0' ++ s

/-- time_to_timestamp from timeutils.py: format a unix epoch as the 14-digit
UTC timestamp.  The model covers nonnegative epochs (all uses in the claims);
strftime on a fractional epoch drops the sub-second part, so whole seconds
suffice. -/
def time_to_timestamp (t : Int) : Option (List Char) :=
  if t < 0 then none
  else
    let secs := t.toNat
    let days := secs / 86400
    let ymd := civil_from_days days
    let rem := secs % 86400
    some (padNum 4 ymd.1 ++ padNum 2 ymd.2.1 ++ padNum 2 ymd.2.2 ++
          padNum 2 (rem / 3600) ++ padNum 2 (rem % 3600 / 60) ++ padNum 2 (rem % 60))

/-! ## compat.py -/

/-- fields_to_pywb from compat.py (identical to fields_to_cc in the package
root module), in dict insertion order. -/
def fields_to_pywb : List (String × String) :=
  [("statuscode", "status"), ("original", "url"), ("mimetype", "mime")]

/-- fields_to_ia from compat.py: the inverse table, insertion order preserved. -/
def fields_to_ia : List (String × String) :=
  fields_to_pywb.map (fun kv => (kv.2, kv.1))

/-- A word character for the regex \b boundary. -/
def isWordChar (c : Char) : Bool := c.isAlphanum || c = '_'

/-- Boundary test of \b placed before a word character: the previous character
is absent or is a non-word character.  All field names in the tables start
with a letter, so this is exactly the \b semantics for these patterns. -/
def boundaryOk : Option Char → Bool
  | none => true
  | some p => ¬ isWordChar p

/-- re.sub(r(backslash-b + k + colon), v + colon, f, 1): replace the first
occurrence of the substring k ++ ":" that begins at a word boundary; prev is
the character just before the current position. -/
def subFirst (k v : List Char) (prev : Option Char) : List Char → List Char
  | [] => []
  | c :: rest =>
    if boundaryOk prev ∧ (k ++ [':']).isPrefixOf (c :: rest) then
      v ++ [':'] ++ (c :: rest).drop (k.length + 1)
    else
      c :: subFirst k v (some c) rest

/-- The four operators rejected for source ia in munge_filter. -/
def bad_ia_ops : List (List Char) := [['='], ['!', '='], ['~'], ['!', '~']]

/-- One filter expression rewritten for ia: fold the fields_to_ia table with
first-occurrence substitution. -/
def munge_one_ia (f : List Char) : List Char :=
  fields_to_ia.foldl (fun g kv => subFirst kv.1.toList kv.2.toList none g) f

/-- One filter expression rewritten for cc or any other pywb source. -/
def munge_one_pywb (f : List Char) : List Char :=
  fields_to_pywb.foldl (fun g kv => subFirst kv.1.toList kv.2.toList none g) f

/-- munge_filter from compat.py: per expression, for ia first reject the
unsupported operators (ValueError modelled as Except.error), then rewrite
pywb names to ia names; for every other source rewrite ia names to pywb. -/
def munge_filter (filter : List (List Char)) (source : String) :
    Except String (List (List Char)) :=
  match filter with
  | [] => .ok []
  | f :: rest =>
    if source = "ia" then
      if bad_ia_ops.any (fun b => b.isPrefixOf f) then
        .error "ia does not support the filter"
      else
        match munge_filter rest source with
        | .error e => .error e
        | .ok r => .ok (munge_one_ia f :: r)
    else
      match munge_filter rest source with
      | .error e => .error e
      | .ok r => .ok (munge_one_pywb f :: r)

/-- l.pop(0): first element and the mutated remainder; IndexError is none. -/
def popFront : List String → Option (String × List String)
  | [] => none
  | x :: xs => some (x, xs)

/-- Table lookup fields_to_pywb.get(f) used by munge_fields. -/
def lookup_pywb (f : String) : Option String :=
  (fields_to_pywb.find? (fun kv => kv.1 = f)).map (·.2)

/-- The inner loop of munge_fields for one row: pop one value per field name,
building the pywb-keyed object; returns the object together with the
post-state of the mutated row (IndexError from popping a short row is none). -/
def munge_fields_row (fields : List String) (l : List String) :
    Option (List (String × String) × List String) :=
  match fields with
  | [] => some ([], l)
  | f :: fs => do
    let (value, l2) ← popFront l
    let (obj, l3) ← munge_fields_row fs l2
    let key := match lookup_pywb f with
      | some v => v
      | none => f
    pure ((key, value) :: obj, l3)

/-- munge_fields from compat.py.  The rows are mutated in place by the pops;
the model returns the produced objects together with the post-state of every
input row. -/
def munge_fields (fields : List String) (lines : List (List String)) :
    Option (List (List (String × String)) × List (List String)) :=
  match lines with
  | [] => some ([], [])
  | l :: ls => do
    let (obj, l2) ← munge_fields_row fields l
    let (objs, ls2) ← munge_fields fields ls
    pure (obj :: objs, l2 :: ls2)

/-! ## commoncrawl.py: bisect and defaults -/

/-- Python bisect.bisect_left on a sorted list: the number of elements
strictly below x (bisect_cc only ever receives the sorted cc_times). -/
def bisect_left (a : List Int) (x : Int) : Nat :=
  a.countP (fun y => decide (y < x))

/-- Python bisect.bisect_right on a sorted list: the number of elements ≤ x. -/
def bisect_right (a : List Int) (x : Int) : Nat :=
  a.countP (fun y => decide (y ≤ x))

/-- bisect_cc from commoncrawl.py: start is lower bound of from minus one
(clamped at 0, which Nat subtraction gives directly), stop is upper bound of
to plus one (clamped at the list length, or the length when to is absent);
return the endpoints of the times in the slice. -/
def bisect_cc (cc_map : Int → String) (cc_times : List Int)
    (from_ts_t : Int) (to_t : Option Int) : List String :=
  let start := bisect_left cc_times from_ts_t - 1
  let stop := match to_t with
    | some t => min (bisect_right cc_times t + 1) cc_times.length
    | none => cc_times.length
  ((cc_times.drop start).take (stop - start)).map cc_map

/-- The query parameters touched by apply_cc_defaults; absent-or-None keys
are none.  The params key named to is rendered to_param, as to is a Lean
keyword. -/
structure CcParams where
  closest : Option (List Char)
  from_ts : Option (List Char)
  to_param : Option (List Char)
deriving DecidableEq, Repr

/-- apply_cc_defaults from commoncrawl.py (the closest branch, the no-crawl
date-defaulting branch and the crawl pass-through).  now is the resolved
clock value (Python falls back to time.time() when the caller passes none).
ValueError raised by the timestamp helpers is modelled as none. -/
def apply_cc_defaults (params : CcParams) (crawl_present : Bool) (now : Int) :
    Option CcParams :=
  match params.closest with
  | some c => do
    let closest_t ← timestamp_to_time c
    let three_months : Int := 3 * 30 * 86400
    let p2 ← match params.from_ts with
      | none => do
        let f ← time_to_timestamp (closest_t - three_months)
        pure { params with from_ts := some f }
      | some _ => pure params
    match p2.to_param with
    | none => do
      let t ← time_to_timestamp (closest_t + three_months)
      pure { p2 with to_param := some t }
    | some _ => pure p2
  | none =>
    if ¬ crawl_present then
      match params.from_ts, params.to_param with
      | some _, _ => some params
      | none, some t => do
        let tu ← pad_timestamp_up t
        let tt ← timestamp_to_time tu
        let f ← time_to_timestamp (tt - 365 * 86400)
        pure { params with from_ts := some f }
      | none, none => do
        let f ← time_to_timestamp (now - 365 * 86400)
        pure { params with from_ts := some f }
    else some params

/-! ## Package root module: munge_filter, apply_cc_defaults, get/items -/

/-- munge_filter from the package root module: unlike the compat version it
takes a single expression, and sources other than ia and cc pass through
untransformed. -/
def munge_filter_init (filter : List Char) (source : String) : Option (List Char) :=
  if source = "ia" then
    if bad_ia_ops.any (fun b => b.isPrefixOf filter) then none
    else some (munge_one_ia filter)
  else if source = "cc" then some (munge_one_pywb filter)
  else some filter

/-- The query parameters handled by get and items in the package root
module; absent-or-None keys are none; the key named to is rendered to_param,
as to is a Lean keyword. -/
structure GetParams where
  url : Option String
  output : Option String
  limit : Option Int
  filter : Option (List Char)
  from_ts : Option (List Char)
  to_param : Option (List Char)
  closest : Option (List Char)
deriving DecidableEq, Repr

/-- A kwargs dict with no keys. -/
def noKwargs : GetParams := ⟨none, none, none, none, none, none, none⟩

/-- apply_cc_defaults from the package root module: only fills from_ts when
it is absent (from to minus one year when to is present, else from now minus
one year).  now is the resolved wall clock. -/
def apply_cc_defaults_init (params : GetParams) (now : Int) : Option GetParams :=
  match params.from_ts with
  | some _ => some params
  | none =>
    match params.to_param with
    | some t => do
      let tu ← pad_timestamp_up t
      let tt ← timestamp_to_time tu
      let f ← time_to_timestamp (tt - 365 * 86400)
      pure { params with from_ts := some f }
    | none => do
      let f ← time_to_timestamp (now - 365 * 86400)
      pure { params with from_ts := some f }

/-- The parameter preparation of CDXFetcher.get: set url and output, munge a
present filter, default limit to 1000 when absent, then apply the cc
defaults when the source is cc.  A ValueError from munging or the timestamp
helpers is none. -/
def CDXFetcher_get_params (source : String) (now : Int) (url : String)
    (kwargs : GetParams) : Option GetParams := do
  let params := { kwargs with url := some url, output := some "json" }
  let params ← match params.filter with
    | some f => do
      let f2 ← munge_filter_init f source
      pure { params with filter := some f2 }
    | none => pure params
  let params := if params.limit = none then { params with limit := some 1000 } else params
  if source = "cc" then apply_cc_defaults_init params now else pure params

/-- The parameter preparation of CDXFetcher.items, which in the source is the
same code repeated: it also defaults limit to 1000 when absent. -/
def CDXFetcher_items_params (source : String) (now : Int) (url : String)
    (kwargs : GetParams) : Option GetParams := do
  let params := { kwargs with url := some url, output := some "json" }
  let params ← match params.filter with
    | some f => do
      let f2 ← munge_filter_init f source
      pure { params with filter := some f2 }
    | none => pure params
  let params := if params.limit = none then { params with limit := some 1000 } else params
  if source = "cc" then apply_cc_defaults_init params now else pure params

/-! ## myrequests.py: DNS-fatal heuristic (claim C4) -/

/-- previously_seen_hostnames from myrequests.py (initial contents). -/
def previously_seen_hostnames : List String :=
  ["commoncrawl.s3.amazonaws.com", "data.commoncrawl.org", "web.archive.org"]

/-- dns_fatal from myrequests.py: true when the argument is not in
previously_seen_hostnames (the Python function returns True or a falsy
None). -/
def dns_fatal (hostname : String) : Bool :=
  ¬ previously_seen_hostnames.contains hostname

/-- Scan for the :// separating the scheme from the authority. -/
def afterScheme : List Char → Option (List Char)
  | [] => none
  | ':' :: '/' :: '/' :: rest => some rest
  | _ :: rest => afterScheme rest

/-- urlparse(url).hostname for the http and https URLs this library fetches:
the lowercased text between :// and the next slash, with any port stripped
(userinfo does not occur in the modelled URLs). -/
def url_hostname (url : List Char) : Option String :=
  (afterScheme url).map (fun r =>
    String.mk ((r.takeWhile (fun c => c ≠ '/' ∧ c ≠ ':')).map Char.toLower))

/-- What the connection-error handler does with one caught error. -/
inductive ConnErrAction
  | raiseBadHostname
  | raiseTooManyErrors
  | sleepLongAndRetry
deriving DecidableEq, Repr

/-- The connection-error handler of myrequests_get (myrequests.py lines
131-150) for one caught error: on a DNS resolution error the source passes
the FULL url string, not the parsed hostname, to dns_fatal and raises when
it returns true; otherwise it raises once connect_errors (the counter value
after the increment) exceeds raise_error_after_n_errors, and otherwise
sleeps the long backoff and retries. -/
def connection_error_action (url : String) (is_dns_error : Bool)
    (connect_errors raise_error_after_n_errors : Nat) : ConnErrAction :=
  if is_dns_error ∧ dns_fatal url then .raiseBadHostname
  else if connect_errors > raise_error_after_n_errors then .raiseTooManyErrors
  else .sleepLongAndRetry

/-! ## myrequests.py: rate limiting (claim C3) -/

/-- The per-host state relevant to rate limiting: the wall clock and the
stored next_fetch for the requested host. -/
structure RLState where
  clock : ℚ
  next_fetch : ℚ
deriving DecidableEq, Repr

/-- How one iteration of the retry loop ends. -/
inductive AttemptOutcome
  | success      -- 2xx, allow404, or the cdx-mode 400 and 404 break
  | retryStatus  -- 429 or 5xx: sleep retry_sec, double it capped at 60
  | connError    -- caught connection error that does not raise: sleep 60
  | raiseNow     -- any raising path: the exception propagates
deriving DecidableEq, Repr

/-- One iteration of the retry loop: the requests.get call takes duration
seconds of wall clock and ends in the given outcome. -/
structure Attempt where
  duration : ℚ
  outcome : AttemptOutcome

/-- retry_max_sec from myrequests_get. -/
def retry_max_sec : ℚ := 60

/-- The retry loop of myrequests_get (lines 98-153).  No iteration contains
an update_next_fetch call, so next_fetch is only carried through.  Returns
the state after the loop, and some true when the loop exited normally, some
false when it raised, none when the script ended mid-loop. -/
def run_attempts : RLState → ℚ → List Attempt → RLState × Option Bool
  | st, _, [] => (st, none)
  | st, retry_sec, a :: rest =>
    let st1 : RLState := { st with clock := st.clock + a.duration }
    match a.outcome with
    | .success => (st1, some true)
    | .raiseNow => (st1, some false)
    | .retryStatus =>
      run_attempts { st1 with clock := st1.clock + retry_sec }
        (min (retry_sec * 2) retry_max_sec) rest
    | .connError =>
      run_attempts { st1 with clock := st1.clock + retry_max_sec }
        (min (retry_sec * 2) retry_max_sec) rest

/-- The observable pieces of one myrequests_get call. -/
structure RLResult where
  final : RLState
  sleep0 : ℚ
  reserve : ℚ
  issuedAt : ℚ
  returned : Option Bool
deriving DecidableEq, Repr

/-- The rate-limiting skeleton of myrequests_get (myrequests.py lines 66-77
and 155-160): read the clock, normalize the stored next_fetch (a stored 0
means unset and becomes the clock, as in get_retries), sleep until
next_fetch, advance next_fetch by minimum_interval before the request loop,
run the loop, and when the call returns normally re-set next_fetch to now
plus minimum_interval; when the loop raises, the final re-set is skipped. -/
def myrequests_get_rl (t0 stored_next_fetch minimum_interval : ℚ)
    (attempts : List Attempt) : RLResult :=
  let nf := if stored_next_fetch = 0 then t0 else stored_next_fetch
  let sleep0 := if t0 < nf then nf - t0 else 0
  let clock1 := t0 + sleep0
  let reserve := nf + minimum_interval
  let res := run_attempts { clock := clock1, next_fetch := reserve }
    (2 * minimum_interval) attempts
  { final := if res.2 = some true then
      { clock := res.1.clock, next_fetch := res.1.clock + minimum_interval }
    else res.1,
    sleep0 := sleep0, reserve := reserve, issuedAt := clock1, returned := res.2 }

/-! ## Package root module: cdx_to_json and the CDX iterator (claim C1) -/

/-- One normalized capture record: a pywb-keyed object. -/
abbrev CaptureObj := List (String × String)

/-- The body of a CDX response, abstracted by its wire shape: a pywb
JSON-lines body (text beginning with a brace), an ia list-of-lists body
(text beginning with a bracket; an empty rows list models the literal two
characters bracket-bracket), or the empty text. -/
inductive RespBody
  | pywbLines (lines : List CaptureObj)
  | iaRows (rows : List (List String))
  | emptyText
deriving DecidableEq, Repr

/-- An HTTP response as seen by the CDX fetcher. -/
structure CdxResp where
  status_code : Nat
  body : RespBody
deriving DecidableEq, Repr

/-- cdx_to_json from the package root module: a 404 is an empty result; a
pywb body is its parsed lines; the empty ia list-of-lists is empty; a
nonempty ia body pops the field-name row and munges the value rows (the same
loop as munge_fields); every raising path (unparseable body, short rows) is
none. -/
def cdx_to_json (resp : CdxResp) : Option (List CaptureObj) :=
  if resp.status_code = 404 then some []
  else match resp.body with
    | .pywbLines lines => some lines
    | .emptyText => none
    | .iaRows [] => some []
    | .iaRows (fields :: rows) => (munge_fields fields rows).map (·.1)

/-- The three statuses get_for_iter reports to the iterator. -/
inductive GStatus
  | lastEndpoint
  | lastPage
  | ok
deriving DecidableEq, Repr

/-- What one get_for_iter call produced: its status, the records, the limit
stored back into params, and whether an HTTP fetch was issued. -/
structure GFIResult where
  status : GStatus
  objs : List CaptureObj
  limit : Option Int
  fetched : Bool
deriving DecidableEq, Repr

/-- The CDX server as the iterator sees it: a response for every endpoint
index, page number and current limit parameter. -/
abbrev CdxServer := Nat → Nat → Option Int → CdxResp

/-- CDXFetcher.get_for_iter: report the last endpoint past the index list or
when params limit compares equal to 0 (the source tests equality with 0, an
absent limit reading -1), otherwise fetch; a 400 status or an empty body
ends the pages of this endpoint; otherwise parse and subtract the number of
parsed records from a present limit.  A raising parse is none. -/
def get_for_iter (server : CdxServer) (numEndpoints endpoint page : Nat)
    (limit : Option Int) : Option GFIResult :=
  if numEndpoints ≤ endpoint then some ⟨.lastEndpoint, [], limit, false⟩
  else if limit.getD (-1) = 0 then some ⟨.lastEndpoint, [], limit, false⟩
  else
    let resp := server endpoint page limit
    if resp.status_code = 400 then some ⟨.lastPage, [], limit, true⟩
    else if resp.body = .emptyText then some ⟨.lastPage, [], limit, true⟩
    else match cdx_to_json resp with
      | none => none
      | some ret => some ⟨.ok, ret, limit.map (fun l => l - ret.length), true⟩

/-- The state of a CDXFetcherIter: the endpoint index, the next page to
request (the source keeps page one lower and increments before each fetch),
the records accumulated into cdx_objs (all of which the caller pops), the
limit stored in params, and a count of HTTP fetches issued. -/
structure IterState where
  endpoint : Nat
  page : Nat
  objs : List CaptureObj
  limit : Option Int
  fetches : Nat
deriving DecidableEq, Repr

/-- CDXFetcherIter.get_more: loop calling get_for_iter; the last endpoint
returns, the last page advances the endpoint and resets the page, and a
success extends cdx_objs and continues.  fuel bounds the number of loop
iterations (returning the state reached when it runs out); a raising parse
is none. -/
def get_more (server : CdxServer) (numEndpoints : Nat) :
    Nat → IterState → Option IterState
  | 0, st => some st
  | fuel + 1, st =>
    match get_for_iter server numEndpoints st.endpoint st.page st.limit with
    | none => none
    | some r =>
      let st2 : IterState :=
        { st with limit := r.limit,
                  fetches := st.fetches + (if r.fetched then 1 else 0) }
      match r.status with
      | .lastEndpoint => some st2
      | .lastPage =>
        get_more server numEndpoints fuel { st2 with endpoint := st2.endpoint + 1, page := 0 }
      | .ok =>
        get_more server numEndpoints fuel { st2 with page := st2.page + 1, objs := st2.objs ++ r.objs }

/-- A whole iteration: CDXFetcherIter is constructed with page -1 and calls
get_more, after which the caller pops every accumulated record; objs of the
result is therefore the full stream yielded to the caller. -/
def run_iter (server : CdxServer) (numEndpoints : Nat) (limit : Option Int)
    (fuel : Nat) : Option IterState :=
  get_more server numEndpoints fuel ⟨0, 0, [], limit, 0⟩

/-! ## filter_warc/warc_filter.py: shard rotation (claim C2) -/

/-- The observable events of one writer task, tagged with the sequence
number of the shard they touch. -/
inductive WEvent
  | openShard (seq : Nat)
  | writeWarcinfo (seq : Nat)
  | writeResource (seq : Nat) (size : Nat)
  | writeRecord (seq : Nat) (size : Nat)
  | closeShard (seq : Nat)
deriving DecidableEq, Repr

/-- The writer configuration: max_file_size (0 models the falsy None or 0,
disabling rotation), the size of the warcinfo header written by
create_new_writer_with_header for a given shard sequence (the filename, and
hence the size, may depend on the sequence), and the sizes of the configured
resource records (an empty list models no configuration). -/
structure WCfg where
  max_file_size : Nat
  headerSize : Nat → Nat
  resourceSizes : List Nat

/-- The per-writer rotation state: current shard sequence, accumulated file
size, and the trace of events so far. -/
structure WState where
  seq : Nat
  size : Nat
  events : List WEvent

/-- create_new_writer_with_header from warc_utils.py: opens the shard and
writes its warcinfo record; returns the header size and the events. -/
def open_with_header (cfg : WCfg) (seq : Nat) : Nat × List WEvent :=
  (cfg.headerSize seq, [.openShard seq, .writeWarcinfo seq])

/-- write_resource_records from warc_filter.py: writes every configured
resource record and returns the accumulated size. -/
def write_resource_records (cfg : WCfg) (seq : Nat) : Nat × List WEvent :=
  (cfg.resourceSizes.sum, cfg.resourceSizes.map (.writeResource seq))

/-- rotate_files from warc_filter.py: when max_file_size is set and
current size plus the incoming record size exceeds it, close the current
shard, open sequence plus one with its warcinfo, and re-emit the resource
records when configured; otherwise leave the state unchanged. -/
def rotate_files (cfg : WCfg) (st : WState) (added_byte_size : Nat) : WState :=
  if cfg.max_file_size ≠ 0 ∧ st.size + added_byte_size > cfg.max_file_size then
    let seq2 := st.seq + 1
    let hd := open_with_header cfg seq2
    let rs := if cfg.resourceSizes ≠ [] then write_resource_records cfg seq2 else (0, [])
    { seq := seq2, size := hd.1 + rs.1,
      events := st.events ++ [.closeShard st.seq] ++ hd.2 ++ rs.2 }
  else st

/-- One queue item inside write_warc_records: rotate if needed, then write
the record to the (possibly fresh) shard and add its size. -/
def write_one (cfg : WCfg) (st : WState) (payload : Nat) : WState :=
  let st2 := rotate_files cfg st payload
  { st2 with size := st2.size + payload,
             events := st2.events ++ [.writeRecord st2.seq payload] }

/-- write_warc_records from warc_filter.py for one writer task running to a
normal stop: sequence starts at 1, the first shard gets its warcinfo and the
configured resource records, every payload goes through rotation then write,
and the finally clause closes the open shard. -/
def write_warc_records (cfg : WCfg) (payloads : List Nat) : WState :=
  let hd := open_with_header cfg 1
  let rs := if cfg.resourceSizes ≠ [] then write_resource_records cfg 1 else (0, [])
  let st0 : WState := { seq := 1, size := hd.1 + rs.1, events := hd.2 ++ rs.2 }
  let st := payloads.foldl (write_one cfg) st0
  { st with events := st.events ++ [.closeShard st.seq] }

/-- The open part of the block a shard contributes to the trace: open,
warcinfo, resource records, then the data records. -/
def openPart (cfg : WCfg) (seq : Nat) (recs : List Nat) : List WEvent :=
  [WEvent.openShard seq, WEvent.writeWarcinfo seq]
  ++ (if cfg.resourceSizes ≠ [] then cfg.resourceSizes.map (.writeResource seq) else [])
  ++ recs.map (.writeRecord seq)

/-- The complete trace block of one shard. -/
def shardBlock (cfg : WCfg) (seq : Nat) (recs : List Nat) : List WEvent :=
  openPart cfg seq recs ++ [WEvent.closeShard seq]

/-- The trace of consecutive shards starting at the given sequence. -/
def blocksFrom (cfg : WCfg) (seq : Nat) : List (List Nat) → List WEvent
  | [] => []
  | recs :: rest => shardBlock cfg seq recs ++ blocksFrom cfg (seq + 1) rest

/-- How many shards are open after an event, starting from a given count;
none marks a violation: opening while one is open, or touching or closing a
shard while none is open. -/
def gaugeStep : Option Nat → WEvent → Option Nat
  | some 0, .openShard _ => some 1
  | some 1, .writeWarcinfo _ => some 1
  | some 1, .writeResource _ _ => some 1
  | some 1, .writeRecord _ _ => some 1
  | some 1, .closeShard _ => some 0
  | _, _ => none

/-- A trace is well formed when every write happens with exactly one shard
open, opens happen only with none open, and the trace ends with none open. -/
def wellFormed (evs : List WEvent) : Bool :=
  evs.foldl gaugeStep (some 0) = some 0

/-- The sequence numbers of the shards opened in a trace, in order. -/
def opensOf (evs : List WEvent) : List Nat :=
  evs.filterMap (fun e => match e with
    | .openShard s => some s
    | _ => none)

/-! ## Concrete instances used by the theorems below -/

/-- Whether a munge_filter result is the raised ValueError. -/
def isErr : Except String (List (List Char)) → Bool
  | .error _ => true
  | .ok _ => false

/-- A concrete normalized capture record. -/
def obj_a : CaptureObj := [("url", "http://example.com/a")]

/-- A CDX server whose first page of the first endpoint carries two records
regardless of the limit parameter (paged CDX endpoints return whole pages),
and whose other pages are empty. -/
def twoRecordServer : CdxServer := fun e p _ =>
  if e = 0 ∧ p = 0 then ⟨200, .pywbLines [obj_a, obj_a]⟩ else ⟨200, .emptyText⟩

/-- A CDX server that always answers with an empty body. -/
def emptyServer : CdxServer := fun _ _ _ => ⟨200, .emptyText⟩

/-- A concrete endpoint naming map for the bisection counterexample. -/
def ccMap3 : Int → String := fun t =>
  if t = 10 then "CC-A" else if t = 20 then "CC-B" else "CC-C"

/-- A concrete writer configuration: rotation limit 100 bytes, every
warcinfo header 10 bytes, no resource records. -/
def wcfg100 : WCfg := ⟨100, fun _ => 10, []⟩

/-! # Theorems -/

/-! ## Claim C8: pad_timestamp_up -/

/-- C8 counterexample: pad_timestamp_up does not preserve a supplied
day-of-month that is already valid for its month.  The input 19980215 has
day 15, valid for February of the fixed table (15 ≤ 28), yet the result
19980228235959 carries day 28. -/
theorem pad_timestamp_up_overwrites_valid_day :
    pad_timestamp_up "19980215".toList = some "19980228235959".toList ∧
    ("19980215".toList.drop 6).take 2 = ['1', '5'] ∧
    15 ≤ days_in_month.getD 2 0 ∧
    ("19980228235959".toList.drop 6).take 2 ≠ ['1', '5'] := by
  decide

/-- C8 (amended): for a digit string of even length 4 to 14 whose padded
month field is between 01 and 12, pad_timestamp_up right-pads to 14 digits
with the pattern 29991231235959 and then replaces the day-of-month field by
the last valid day of the supplied month from the fixed table (February
always 28), regardless of the supplied day; every other character of the
padded form is preserved and the result has 14 characters. -/
theorem pad_timestamp_up_shape (ts : List Char) (m : Nat)
    (hdig : ts.all Char.isDigit = true)
    (heven : ts.length % 2 = 0)
    (h4 : 4 ≤ ts.length) (h14 : ts.length ≤ 14)
    (hm : strToNat (((ts ++ TIMESTAMP_HIGH.drop ts.length).drop 4).take 2) = some m)
    (hm1 : 1 ≤ m) (hm12 : m ≤ 12) :
    pad_timestamp_up ts =
      some ((ts ++ TIMESTAMP_HIGH.drop ts.length).take 6
        ++ (toString (days_in_month.getD m 0)).toList
        ++ (ts ++ TIMESTAMP_HIGH.drop ts.length).drop 8) ∧
    ∀ r, pad_timestamp_up ts = some r →
      r.length = 14 ∧
      r.take 6 = (ts ++ TIMESTAMP_HIGH.drop ts.length).take 6 ∧
      r.drop 8 = (ts ++ TIMESTAMP_HIGH.drop ts.length).drop 8 ∧
      (r.drop 6).take 2 = (toString (days_in_month.getD m 0)).toList := by
  have hget : days_in_month.get? m = some (days_in_month.getD m 0) := by
    interval_cases m <;> rfl
  have hddlen : ((toString (days_in_month.getD m 0)).toList).length = 2 := by
    interval_cases m <;> rfl
  have hplen : (ts ++ TIMESTAMP_HIGH.drop ts.length).length = 14 := by
    have h14h : TIMESTAMP_HIGH.length = 14 := by rfl
    simp only [List.length_append, List.length_drop, h14h]
    omega
  have hmain : pad_timestamp_up ts =
      some ((ts ++ TIMESTAMP_HIGH.drop ts.length).take 6
        ++ (toString (days_in_month.getD m 0)).toList
        ++ (ts ++ TIMESTAMP_HIGH.drop ts.length).drop 8) := by
    simp only [pad_timestamp_up, hm, hget]
  refine ⟨hmain, ?_⟩
  intro r hr
  rw [hmain] at hr
  have hreq := Option.some.inj hr
  subst hreq
  generalize hA : (ts ++ TIMESTAMP_HIGH.drop ts.length).take 6 = A
  generalize hdd : (toString (days_in_month.getD m 0)).toList = dd
  generalize hD : (ts ++ TIMESTAMP_HIGH.drop ts.length).drop 8 = D
  have hA6 : A.length = 6 := by rw [← hA]; simp [hplen]
  have hdd2 : dd.length = 2 := by rw [← hdd]; exact hddlen
  have hD6 : D.length = 6 := by rw [← hD]; simp [hplen]
  refine ⟨?_, ?_, ?_, ?_⟩
  · simp [hA6, hdd2, hD6]
  · rw [List.append_assoc, List.take_left' hA6]
  · rw [show A ++ dd ++ D = (A ++ dd) ++ D from by simp]
    rw [List.drop_left' (by simp [hA6, hdd2])]
  · rw [List.append_assoc, List.drop_left' hA6, List.take_left' hdd2]

/-- C8 witness: the amended theorem applied to the concrete input 199802. -/
theorem pad_timestamp_up_shape_witness :
    pad_timestamp_up "199802".toList = some "19980228235959".toList := by
  have h := (pad_timestamp_up_shape "199802".toList 2 (by decide) (by decide)
    (by decide) (by decide) (by decide) (by decide) (by decide)).1
  exact h.trans (by decide)

/-! ## Claim C7: bisect_cc on an inverted window -/

/-- C7 counterexample: with the sorted endpoint times 10, 20, 30 and the
inverted window from 25 to 15, bisect_cc returns the non-empty slice with
the endpoint of time 20, so an inverted window does not give an empty
endpoint slice. -/
theorem bisect_cc_inverted_nonempty :
    ([10, 20, 30] : List Int).Sorted (· ≤ ·) ∧
    (15 : Int) < 25 ∧
    bisect_cc ccMap3 [10, 20, 30] 25 (some 15) = ["CC-B"] ∧
    bisect_cc ccMap3 [10, 20, 30] 25 (some 15) ≠ [] := by
  refine ⟨by decide, by decide, by decide, by decide⟩

/-- C7 (amended): for a time-sorted endpoint list and an inverted window
(from strictly above to), bisect_cc returns a slice of at most two
endpoints; the length is a natural number, so it is in particular never
negative, but the slice can be non-empty because the bisection widens the
window by one endpoint on each side. -/
theorem bisect_cc_inverted_short (cc_map : Int → String) (cc_times : List Int)
    (from_ts_t to_t : Int) (hs : cc_times.Sorted (· ≤ ·)) (h : to_t < from_ts_t) :
    (bisect_cc cc_map cc_times from_ts_t (some to_t)).length ≤ 2 := by
  have hbr : bisect_right cc_times to_t ≤ bisect_left cc_times from_ts_t := by
    apply List.countP_mono_left
    intro a _ ha
    simp only [decide_eq_true_eq] at *
    omega
  have hbl : bisect_left cc_times from_ts_t ≤ cc_times.length :=
    List.countP_le_length _
  simp only [bisect_cc, List.length_map, List.length_take, List.length_drop]
  omega

/-- C7 witness: the amended bound applied to the concrete inverted window. -/
theorem bisect_cc_inverted_short_witness :
    (bisect_cc ccMap3 [10, 20, 30] 25 (some 15)).length ≤ 2 :=
  bisect_cc_inverted_short ccMap3 [10, 20, 30] 25 15 (by decide) (by decide)

/-! ## Claim C6: the closest window of apply_cc_defaults -/

/-- C6: when closest is present and apply_cc_defaults returns, from_ts is
set to closest minus three months (90 days) exactly when it was absent, to
is set to closest plus three months exactly when it was absent, and a
user-supplied from_ts or to is left unchanged, as is closest. -/
theorem apply_cc_defaults_closest_window (params : CcParams) (cp : Bool)
    (now : Int) (c : List Char) (r : CcParams)
    (hc : params.closest = some c)
    (hr : apply_cc_defaults params cp now = some r) :
    ∃ t, timestamp_to_time c = some t ∧
      r.closest = some c ∧
      (params.from_ts = none → r.from_ts = time_to_timestamp (t - 3 * 30 * 86400)) ∧
      (∀ f, params.from_ts = some f → r.from_ts = some f) ∧
      (params.to_param = none → r.to_param = time_to_timestamp (t + 3 * 30 * 86400)) ∧
      (∀ u, params.to_param = some u → r.to_param = some u) := by
  obtain ⟨pc, pf, pt⟩ := params
  subst hc
  simp only [apply_cc_defaults] at hr
  cases ht : timestamp_to_time c with
  | none => rw [ht] at hr; simp at hr
  | some t =>
    rw [ht] at hr
    simp only [Option.bind_eq_bind, Option.some_bind] at hr
    refine ⟨t, rfl, ?_⟩
    cases pf with
    | none =>
      simp only at hr
      cases htf : time_to_timestamp (t - 3 * 30 * 86400) with
      | none => rw [htf] at hr; simp at hr
      | some f =>
        rw [htf] at hr
        simp only [Option.bind_eq_bind, Option.some_bind, Option.pure_def] at hr
        cases pt with
        | none =>
          simp only at hr
          cases htt : time_to_timestamp (t + 3 * 30 * 86400) with
          | none => rw [htt] at hr; simp at hr
          | some u =>
            rw [htt] at hr
            simp only [Option.bind_eq_bind, Option.some_bind, Option.pure_def, Option.some.injEq] at hr
            subst hr
            simp [htf, htt]
        | some u =>
          simp only [Option.some.injEq] at hr
          subst hr
          simp [htf]
    | some f =>
      simp only [Option.bind_eq_bind, Option.pure_def, Option.some_bind] at hr
      cases pt with
      | none =>
        simp only at hr
        cases htt : time_to_timestamp (t + 3 * 30 * 86400) with
        | none => rw [htt] at hr; simp at hr
        | some u =>
          rw [htt] at hr
          simp only [Option.bind_eq_bind, Option.some_bind, Option.pure_def, Option.some.injEq] at hr
          subst hr
          simp [htt]
      | some u =>
        simp only [Option.some.injEq] at hr
        subst hr
        simp

/-- C6 witness: with closest 20180101 and both bounds absent, the derived
window is from 20171003000000 to 20180401000000, as the spec states. -/
theorem apply_cc_defaults_closest_window_witness :
    ∃ t, timestamp_to_time "20180101".toList = some t ∧
      some "20171003000000".toList = time_to_timestamp (t - 3 * 30 * 86400) ∧
      some "20180401000000".toList = time_to_timestamp (t + 3 * 30 * 86400) := by
  obtain ⟨t, ht, _, hf, _, hto, _⟩ :=
    apply_cc_defaults_closest_window
      ⟨some "20180101".toList, none, none⟩ false 0 "20180101".toList
      ⟨some "20180101".toList, some "20171003000000".toList, some "20180401000000".toList⟩
      rfl (by decide)
  exact ⟨t, ht, (hf rfl).symm ▸ rfl, (hto rfl).symm ▸ rfl⟩

/-! ## Claim C10: munge_fields consumes its rows -/

/-- Helper: one row of munge_fields pops exactly one value per field, so the
row post-state is the row with its first |fields| elements removed. -/
theorem munge_fields_row_consumes (fields : List String) :
    ∀ l : List String, fields.length ≤ l.length →
      ∃ obj, munge_fields_row fields l = some (obj, l.drop fields.length) ∧
        obj.length = fields.length := by
  induction fields with
  | nil => intro l _; exact ⟨[], by simp [munge_fields_row], rfl⟩
  | cons f fs ih =>
    intro l hl
    cases l with
    | nil => simp at hl
    | cons x xs =>
      obtain ⟨obj, hobj, hlen⟩ := ih xs (by simpa using hl)
      refine ⟨(match lookup_pywb f with | some v => v | none => f, x) :: obj, ?_, by simp [hlen]⟩
      simp [munge_fields_row, popFront, hobj]

/-- C10: when every row has at least |fields| elements, munge_fields
produces one object per row and, as a side effect, every caller-supplied
row list has lost its first |fields| elements. -/
theorem munge_fields_consumes_rows (fields : List String)
    (lines : List (List String))
    (h : ∀ l ∈ lines, fields.length ≤ l.length) :
    ∃ objs,
      munge_fields fields lines =
        some (objs, lines.map (fun l => l.drop fields.length)) ∧
      objs.length = lines.length := by
  induction lines with
  | nil => exact ⟨[], by simp [munge_fields], rfl⟩
  | cons l ls ih =>
    obtain ⟨obj, hobj, _⟩ := munge_fields_row_consumes fields l (h l (by simp))
    obtain ⟨objs, hobjs, hlen⟩ := ih (fun x hx => h x (by simp [hx]))
    exact ⟨obj :: objs, by simp [munge_fields, hobj, hobjs], by simp [hlen]⟩

/-- C10 witness: three fields consume the first three elements of each row;
the first row keeps its surplus element and the second becomes empty. -/
theorem munge_fields_consumes_rows_witness :
    ∃ objs,
      munge_fields ["urlkey", "timestamp", "original"]
          [["u1", "t1", "o1", "x1"], ["u2", "t2", "o2"]] =
        some (objs, [["x1"], []]) ∧
      objs.length = 2 := by
  have h := munge_fields_consumes_rows ["urlkey", "timestamp", "original"]
    [["u1", "t1", "o1", "x1"], ["u2", "t2", "o2"]] (by decide)
  simpa using h

/-! ## Claim C9: munge_filter translation -/

/-- Helper: a first-occurrence substitution whose pattern starts with a
character other than the exclamation mark leaves a leading exclamation mark
in place. -/
theorem subFirst_bang (kc : Char) (ktl v rest : List Char) (hkc : kc ≠ '!') :
    subFirst (kc :: ktl) v none ('!' :: rest) =
      '!' :: subFirst (kc :: ktl) v (some '!') rest := by
  simp [subFirst, List.isPrefixOf, hkc]

/-- Helper: folding such substitutions over a table keeps the leading
exclamation mark. -/
theorem foldl_subFirst_bang (tbl : List (String × String)) (rest : List Char)
    (htbl : ∀ kv ∈ tbl, ∃ kc ktl, (kv.1.toList = kc :: ktl ∧ kc ≠ '!')) :
    ∃ rest2,
      tbl.foldl (fun g kv => subFirst kv.1.toList kv.2.toList none g) ('!' :: rest)
        = '!' :: rest2 := by
  induction tbl generalizing rest with
  | nil => exact ⟨rest, rfl⟩
  | cons kv tl ih =>
    obtain ⟨kc, ktl, hk, hkc⟩ := htbl kv (by simp)
    rw [List.foldl_cons, hk, subFirst_bang kc ktl _ _ hkc]
    exact ih _ (fun x hx => htbl x (by simp [hx]))

/-- Helper: for source ia, munge_filter raises exactly when some expression
begins with one of the four rejected operators. -/
theorem munge_filter_ia_err_iff (fs : List (List Char)) :
    isErr (munge_filter fs "ia") = true ↔
      ∃ f ∈ fs, bad_ia_ops.any (fun b => b.isPrefixOf f) = true := by
  induction fs with
  | nil => simp [munge_filter, isErr]
  | cons f rest ih =>
    by_cases hb : bad_ia_ops.any (fun b => b.isPrefixOf f) = true
    · simp [munge_filter, hb, isErr]
      exact Or.inl (by simpa using hb)
    · cases hmr : munge_filter rest "ia" with
      | error e =>
        rw [hmr] at ih
        simp [munge_filter, hb, hmr, isErr] at ih ⊢
        exact Or.inr ih
      | ok v =>
        rw [hmr] at ih
        simp [munge_filter, hb, hmr, isErr] at ih ⊢
        exact ⟨by simpa using hb, ih⟩

/-- Helper: a non-raising ia translation rewrites every expression with the
pywb-to-ia table. -/
theorem munge_filter_ia_ok (fs : List (List Char))
    (h : isErr (munge_filter fs "ia") = false) :
    munge_filter fs "ia" = .ok (fs.map munge_one_ia) := by
  induction fs with
  | nil => simp [munge_filter]
  | cons f rest ih =>
    by_cases hb : bad_ia_ops.any (fun b => b.isPrefixOf f) = true
    · simp [munge_filter, hb, isErr] at h
    · cases hmr : munge_filter rest "ia" with
      | error e => simp [munge_filter, hb, hmr, isErr] at h
      | ok v =>
        rw [hmr] at ih
        simp [munge_filter, hb, hmr]
        have hv := ih (by simp [isErr])
        exact Except.ok.inj hv

/-- Helper: any source other than ia never raises and rewrites with the
ia-to-pywb table. -/
theorem munge_filter_other_ok (fs : List (List Char)) (s : String) (hs : s ≠ "ia") :
    munge_filter fs s = .ok (fs.map munge_one_pywb) := by
  induction fs with
  | nil => simp [munge_filter]
  | cons f rest ih => simp [munge_filter, hs, ih]

/-- C9: munge_filter raises for ia exactly when some expression begins with
one of the operators =, !=, ~, !~; otherwise for ia every expression gets
the first occurrence of each pywb field name rewritten to the ia name (the
substitution function replaces only the first boundary occurrence), for any
other source the first occurrence of each ia field name is rewritten to the
pywb name, a leading negation mark stays at the front, and on a concrete
expression with two occurrences only the first is rewritten. -/
theorem munge_filter_translation :
    (∀ fs : List (List Char),
      (isErr (munge_filter fs "ia") = true ↔
        ∃ f ∈ fs, (bad_ia_ops.any (fun b => b.isPrefixOf f)) = true)) ∧
    (∀ fs : List (List Char), isErr (munge_filter fs "ia") = false →
      munge_filter fs "ia" = .ok (fs.map munge_one_ia)) ∧
    (∀ (fs : List (List Char)) (s : String), s ≠ "ia" →
      munge_filter fs s = .ok (fs.map munge_one_pywb)) ∧
    (∀ rest : List Char,
      (munge_one_ia ('!' :: rest)).head? = some '!' ∧
      (munge_one_pywb ('!' :: rest)).head? = some '!') ∧
    munge_one_ia "status:200 status:304".toList = "statuscode:200 status:304".toList := by
  refine ⟨munge_filter_ia_err_iff, munge_filter_ia_ok, munge_filter_other_ok, ?_, by decide⟩
  intro rest
  constructor
  · obtain ⟨r2, hr2⟩ := foldl_subFirst_bang fields_to_ia rest
      (by intro kv hkv; fin_cases hkv <;> exact ⟨_, _, rfl, by decide⟩)
    simp [munge_one_ia] at hr2
    simp [munge_one_ia, hr2]
  · obtain ⟨r2, hr2⟩ := foldl_subFirst_bang fields_to_pywb rest
      (by intro kv hkv; fin_cases hkv <;> exact ⟨_, _, rfl, by decide⟩)
    simp [munge_one_pywb] at hr2
    simp [munge_one_pywb, hr2]

/-- C9 witness: the translation theorem applied at concrete inputs: a cc
translation rewrites statuscode to status, and a negated ia expression keeps
its leading negation mark. -/
theorem munge_filter_translation_witness :
    munge_filter ["statuscode:200".toList] "cc" = .ok ["status:200".toList] ∧
    (munge_one_ia ('!' :: "status:200".toList)).head? = some '!' := by
  have h := munge_filter_translation
  constructor
  · have h3 := h.2.2.1 ["statuscode:200".toList] "cc" (by decide)
    rw [h3]
    exact congrArg Except.ok (by decide)
  · exact (h.2.2.2.1 "status:200".toList).1

/-! ## Claim C5: the default limit on get and items -/

/-- Helper: the root-module apply_cc_defaults never touches the limit key. -/
theorem apply_cc_defaults_init_limit (p : GetParams) (now : Int) (r : GetParams)
    (h : apply_cc_defaults_init p now = some r) : r.limit = p.limit := by
  obtain ⟨pu, po, pl, pf, pfr, pto, pc⟩ := p
  cases pfr with
  | some f =>
    simp only [apply_cc_defaults_init, Option.some.injEq] at h
    subst h; rfl
  | none =>
    cases pto with
    | some t =>
      simp only [apply_cc_defaults_init] at h
      cases hu : pad_timestamp_up t with
      | none => rw [hu] at h; simp at h
      | some tu =>
        rw [hu] at h
        simp only [Option.bind_eq_bind, Option.some_bind] at h
        cases ht : timestamp_to_time tu with
        | none => rw [ht] at h; simp at h
        | some tt =>
          rw [ht] at h
          simp only [Option.bind_eq_bind, Option.some_bind] at h
          cases hf : time_to_timestamp (tt - 365 * 86400) with
          | none => rw [hf] at h; simp at h
          | some f =>
            rw [hf] at h
            simp only [Option.bind_eq_bind, Option.some_bind, Option.pure_def,
              Option.some.injEq] at h
            subst h; rfl
    | none =>
      simp only [apply_cc_defaults_init] at h
      cases hf : time_to_timestamp (now - 365 * 86400) with
      | none => rw [hf] at h; simp at h
      | some f =>
        rw [hf] at h
        simp only [Option.bind_eq_bind, Option.some_bind, Option.pure_def,
          Option.some.injEq] at h
        subst h; rfl

/-- Helper: after parameter preparation the stored limit is 1000 when the
caller supplied none and the supplied value otherwise. -/
theorem get_params_limit (source : String) (now : Int) (url : String)
    (kwargs : GetParams) (r : GetParams)
    (h : CDXFetcher_get_params source now url kwargs = some r) :
    r.limit = (if kwargs.limit = none then some 1000 else kwargs.limit) := by
  obtain ⟨ku, ko, kl, kf, kfr, kto, kc⟩ := kwargs
  cases kf with
  | some f =>
    simp only [CDXFetcher_get_params] at h
    cases hm : munge_filter_init f source with
    | none => rw [hm] at h; simp at h
    | some f2 =>
      rw [hm] at h
      simp only [Option.bind_eq_bind, Option.some_bind, Option.pure_def] at h
      by_cases hcc : source = "cc"
      · rw [if_pos hcc] at h
        by_cases hl : kl = none
        · subst hl
          simp only [if_pos rfl] at h
          have := apply_cc_defaults_init_limit _ _ _ h
          simpa using this
        · rw [if_neg ?side] at h
          case side => simpa using hl
          have := apply_cc_defaults_init_limit _ _ _ h
          simp only [if_neg hl]
          simpa using this
      · rw [if_neg hcc] at h
        by_cases hl : kl = none
        · subst hl
          simp only [if_pos rfl] at h
          simp only [Option.some.injEq] at h
          subst h
          simp
        · rw [if_neg ?side2] at h
          case side2 => simpa using hl
          simp only [Option.some.injEq] at h
          subst h
          simp [if_neg hl]
  | none =>
    simp only [CDXFetcher_get_params, Option.bind_eq_bind, Option.some_bind,
      Option.pure_def] at h
    by_cases hcc : source = "cc"
    · rw [if_pos hcc] at h
      by_cases hl : kl = none
      · subst hl
        simp only [if_pos rfl] at h
        have := apply_cc_defaults_init_limit _ _ _ h
        simpa using this
      · rw [if_neg ?side3] at h
        case side3 => simpa using hl
        have := apply_cc_defaults_init_limit _ _ _ h
        simp only [if_neg hl]
        simpa using this
    · rw [if_neg hcc] at h
      by_cases hl : kl = none
      · subst hl
        simp only [if_pos rfl] at h
        simp only [Option.some.injEq] at h
        subst h
        simp
      · rw [if_neg ?side4] at h
        case side4 => simpa using hl
        simp only [Option.some.injEq] at h
        subst h
        simp [if_neg hl]

/-- C5 (amended): a default limit of 1000 is applied when the caller
supplies no limit, and a supplied limit is preserved, on BOTH get and items;
the items entry point does not leave an absent limit absent. -/
theorem default_limit_on_get_and_items (source : String) (now : Int) (url : String)
    (kwargs : GetParams) (r : GetParams) :
    (kwargs.limit = none →
      (CDXFetcher_get_params source now url kwargs = some r → r.limit = some 1000) ∧
      (CDXFetcher_items_params source now url kwargs = some r → r.limit = some 1000)) ∧
    (∀ n, kwargs.limit = some n →
      (CDXFetcher_get_params source now url kwargs = some r → r.limit = some n) ∧
      (CDXFetcher_items_params source now url kwargs = some r → r.limit = some n)) := by
  have hsame : CDXFetcher_items_params = CDXFetcher_get_params := rfl
  constructor
  · intro hnone
    constructor
    · intro h
      have := get_params_limit source now url kwargs r h
      rw [hnone] at this
      simpa using this
    · intro h
      rw [hsame] at h
      have := get_params_limit source now url kwargs r h
      rw [hnone] at this
      simpa using this
  · intro n hn
    constructor
    · intro h
      have := get_params_limit source now url kwargs r h
      rw [hn] at this
      simpa using this
    · intro h
      rw [hsame] at h
      have := get_params_limit source now url kwargs r h
      rw [hn] at this
      simpa using this

/-- C5 counterexample: items with no caller limit stores limit 1000 into
the params, so the claim that the default is applied on get only (and that
items imposes no default) fails. -/
theorem items_applies_default_limit :
    (CDXFetcher_items_params "ia" 0 "http://example.com" noKwargs).map (·.limit)
      = some (some 1000) ∧
    (CDXFetcher_items_params "ia" 0 "http://example.com" noKwargs).map (·.limit)
      ≠ some none := by
  constructor
  · decide
  · decide

/-- C5 witness: the amended theorem applied at a concrete items call. -/
theorem default_limit_witness :
    CDXFetcher_items_params "ia" 0 "http://example.com" noKwargs =
      some ⟨some "http://example.com", some "json", some 1000, none, none, none, none⟩ ∧
    (⟨some "http://example.com", some "json", some 1000, none, none, none, none⟩ :
      GetParams).limit = some 1000 := by
  refine ⟨by decide, ?_⟩
  exact (default_limit_on_get_and_items "ia" 0 "http://example.com" noKwargs
    ⟨some "http://example.com", some "json", some 1000, none, none, none, none⟩).1
    rfl |>.2 (by decide)

/-! ## Claim C4: the DNS-fatal decision -/

/-- C4 (code bug): on a DNS error the handler raises even for the
previously-seen hostname web.archive.org, because the source passes the full
URL (never a member of the hostname set) to dns_fatal instead of the parsed
hostname; had the hostname been passed, as the signature and doc string of
dns_fatal intend, the handler would sleep and retry. -/
theorem dns_error_raises_for_seen_hostname :
    url_hostname "https://web.archive.org/cdx/search/cdx".toList
      = some "web.archive.org" ∧
    previously_seen_hostnames.contains "web.archive.org" = true ∧
    connection_error_action "https://web.archive.org/cdx/search/cdx" true 1 1
      = .raiseBadHostname ∧
    connection_error_action "web.archive.org" true 1 1 = .sleepLongAndRetry := by
  refine ⟨by decide, by decide, by decide, by decide⟩

/-! ## Claim C3: per-host rate limiting -/

/-- Helper: no iteration of the retry loop changes next_fetch: the stored
reservation is carried through every retry unchanged. -/
theorem run_attempts_keeps_next_fetch (atts : List Attempt) :
    ∀ (st : RLState) (rs : ℚ), (run_attempts st rs atts).1.next_fetch = st.next_fetch := by
  induction atts with
  | nil => intro st rs; rfl
  | cons a rest ih =>
    intro st rs
    obtain ⟨d, o⟩ := a
    cases o <;> simp [run_attempts, ih]

/-- Helper: the retry loop only moves the wall clock forward when the
request durations and the initial retry_sec are nonnegative. -/
theorem run_attempts_clock_mono (atts : List Attempt) :
    ∀ (st : RLState) (rs : ℚ), 0 ≤ rs → (∀ a ∈ atts, 0 ≤ a.duration) →
      st.clock ≤ (run_attempts st rs atts).1.clock := by
  induction atts with
  | nil => intro st rs _ _; exact le_refl _
  | cons a rest ih =>
    intro st rs hrs hd
    obtain ⟨d, o⟩ := a
    have hd0 : 0 ≤ d := hd ⟨d, o⟩ (List.mem_cons_self _ _)
    have hdr : ∀ a ∈ rest, 0 ≤ a.duration := fun a ha => hd a (List.mem_cons_of_mem _ ha)
    have hmin : 0 ≤ min (rs * 2) retry_max_sec := by
      refine le_min (by linarith) (by norm_num [retry_max_sec])
    have h60 : (0 : ℚ) ≤ retry_max_sec := by norm_num [retry_max_sec]
    cases o with
    | success => simp [run_attempts]; linarith
    | raiseNow => simp [run_attempts]; linarith
    | retryStatus =>
      simp only [run_attempts]
      calc st.clock ≤ st.clock + d + rs := by linarith
        _ ≤ _ := ih _ _ hmin hdr
    | connError =>
      simp only [run_attempts]
      calc st.clock ≤ st.clock + d + retry_max_sec := by linarith
        _ ≤ _ := ih _ _ hmin hdr

/-- C3: one myrequests_get call sleeps until the host entry next_fetch (the
issue time is at or after it), advances next_fetch by minimum_interval
before the request loop, never advances it again during retries (the loop
preserves next_fetch for every script), re-sets it to now plus
minimum_interval when the call returns normally, and the stored next_fetch
advances monotonically: entry value ≤ reservation ≤ final value. -/
theorem myrequests_rate_limiting (t0 nf0 mi : ℚ) (atts : List Attempt)
    (hmi : 0 ≤ mi) (hd : ∀ a ∈ atts, 0 ≤ a.duration) :
    (if nf0 = 0 then t0 else nf0) ≤ (myrequests_get_rl t0 nf0 mi atts).issuedAt ∧
    (myrequests_get_rl t0 nf0 mi atts).reserve = (if nf0 = 0 then t0 else nf0) + mi ∧
    (∀ (st : RLState) (rs : ℚ), (run_attempts st rs atts).1.next_fetch = st.next_fetch) ∧
    ((myrequests_get_rl t0 nf0 mi atts).returned = some true →
      (myrequests_get_rl t0 nf0 mi atts).final.next_fetch =
        (myrequests_get_rl t0 nf0 mi atts).final.clock + mi) ∧
    (if nf0 = 0 then t0 else nf0) ≤ (myrequests_get_rl t0 nf0 mi atts).reserve ∧
    (myrequests_get_rl t0 nf0 mi atts).reserve ≤
      (myrequests_get_rl t0 nf0 mi atts).final.next_fetch := by
  have hL1 := run_attempts_keeps_next_fetch atts
  have hL2 := run_attempts_clock_mono atts
  set nfe := (if nf0 = 0 then t0 else nf0) with hnfe
  set sleep0 := (if t0 < nfe then nfe - t0 else 0) with hsleep0
  have hsleep : nfe ≤ t0 + sleep0 := by
    rw [hsleep0]
    rcases lt_or_le t0 nfe with h | h
    · rw [if_pos h]; linarith
    · rw [if_neg (not_lt.mpr h)]; linarith
  have hres : myrequests_get_rl t0 nf0 mi atts =
      { final :=
          if (run_attempts { clock := t0 + sleep0, next_fetch := nfe + mi } (2 * mi) atts).2
              = some true then
            { clock := (run_attempts { clock := t0 + sleep0, next_fetch := nfe + mi }
                (2 * mi) atts).1.clock,
              next_fetch := (run_attempts { clock := t0 + sleep0, next_fetch := nfe + mi }
                (2 * mi) atts).1.clock + mi }
          else (run_attempts { clock := t0 + sleep0, next_fetch := nfe + mi } (2 * mi) atts).1,
        sleep0 := sleep0, reserve := nfe + mi, issuedAt := t0 + sleep0,
        returned := (run_attempts { clock := t0 + sleep0, next_fetch := nfe + mi }
          (2 * mi) atts).2 } := by
    rw [myrequests_get_rl, hnfe, hsleep0]
  rw [hres]
  have hclock : t0 + sleep0 ≤
      (run_attempts { clock := t0 + sleep0, next_fetch := nfe + mi } (2 * mi) atts).1.clock := by
    have := hL2 { clock := t0 + sleep0, next_fetch := nfe + mi } (2 * mi) (by linarith) hd
    simpa using this
  have hnf : (run_attempts { clock := t0 + sleep0, next_fetch := nfe + mi }
      (2 * mi) atts).1.next_fetch = nfe + mi := by
    have := hL1 { clock := t0 + sleep0, next_fetch := nfe + mi } (2 * mi)
    simpa using this
  refine ⟨by simpa using hsleep, rfl, hL1, ?_, by simp; linarith, ?_⟩
  · intro hret
    simp only at hret ⊢
    rw [if_pos hret]
  · simp only
    split
    · simp only
      linarith
    · rw [hnf]


/-- C3 witness: the rate-limit theorem applied to a concrete call: entry
next_fetch 103, minimum interval 3, one successful attempt of duration 1. -/
theorem myrequests_rate_limiting_witness :
    (myrequests_get_rl 100 103 3 [⟨1, .success⟩]).reserve =
      (if (103 : ℚ) = 0 then (100 : ℚ) else 103) + 3 ∧
    (myrequests_get_rl 100 103 3 [⟨1, .success⟩]).final.next_fetch =
      (myrequests_get_rl 100 103 3 [⟨1, .success⟩]).final.clock + 3 := by
  have h := myrequests_rate_limiting 100 103 3 [⟨1, .success⟩] (by decide) (by decide)
  exact ⟨h.2.1, h.2.2.2.1 (by decide)⟩

/-! ## Claim C2: shard rotation in the WARC writer -/

/-- Helper: the size component of the conditional resource-record write. -/
theorem rs_pair_fst (cfg : WCfg) (seq : Nat) :
    (if cfg.resourceSizes ≠ [] then write_resource_records cfg seq else (0, [])).1
      = (if cfg.resourceSizes ≠ [] then cfg.resourceSizes.sum else 0) := by
  split <;> rfl

/-- Helper: the event component of the conditional resource-record write. -/
theorem rs_pair_snd (cfg : WCfg) (seq : Nat) :
    (if cfg.resourceSizes ≠ [] then write_resource_records cfg seq else (0, [])).2
      = (if cfg.resourceSizes ≠ [] then cfg.resourceSizes.map (.writeResource seq) else []) := by
  split <;> rfl

/-- Helper: when the size budget is not exceeded, a write only appends the
record and its size. -/
theorem write_one_no_rot (cfg : WCfg) (st : WState) (p : Nat)
    (h : ¬(cfg.max_file_size ≠ 0 ∧ st.size + p > cfg.max_file_size)) :
    write_one cfg st p =
      { st with size := st.size + p, events := st.events ++ [.writeRecord st.seq p] } := by
  simp [write_one, rotate_files, h]

/-- Helper: when the budget is exceeded, a write closes the shard, opens
sequence plus one with warcinfo and resource records, then writes. -/
theorem write_one_rot (cfg : WCfg) (st : WState) (p : Nat)
    (h : cfg.max_file_size ≠ 0 ∧ st.size + p > cfg.max_file_size) :
    write_one cfg st p =
      { seq := st.seq + 1,
        size := (cfg.headerSize (st.seq + 1)
          + (if cfg.resourceSizes ≠ [] then cfg.resourceSizes.sum else 0)) + p,
        events := st.events ++ [.closeShard st.seq]
          ++ ([.openShard (st.seq + 1), .writeWarcinfo (st.seq + 1)]
            ++ (if cfg.resourceSizes ≠ [] then
                  cfg.resourceSizes.map (.writeResource (st.seq + 1)) else [])
            ++ [.writeRecord (st.seq + 1) p]) } := by
  simp only [write_one, rotate_files, if_pos h, open_with_header]
  rw [rs_pair_fst, rs_pair_snd]
  simp [List.append_assoc]

/-- Helper: one more record extends the open block of the current shard. -/
theorem openPart_snoc (cfg : WCfg) (seq : Nat) (recs : List Nat) (p : Nat) :
    openPart cfg seq (recs ++ [p]) = openPart cfg seq recs ++ [.writeRecord seq p] := by
  simp [openPart]

/-- Helper: appending one shard to the block list appends one shard block. -/
theorem blocksFrom_snoc (cfg : WCfg) (xs : List (List Nat)) (y : List Nat) :
    ∀ s, blocksFrom cfg s (xs ++ [y]) = blocksFrom cfg s xs ++ shardBlock cfg (s + xs.length) y := by
  induction xs with
  | nil => intro s; simp [blocksFrom]
  | cons x tl ih =>
    intro s
    simp only [List.cons_append, blocksFrom, List.append_eq, ih (s + 1), List.append_assoc,
      List.length_cons]
    rw [show s + 1 + tl.length = s + (tl.length + 1) from by omega]

/-- Helper: the writer loop invariant: from a state that is a sequence of
complete shard blocks followed by one open shard, the loop reaches another
such state, and no payload is lost or duplicated. -/
theorem foldl_write_shape (cfg : WCfg) :
    ∀ (payloads : List Nat) (st : WState) (done : List (List Nat)) (cur : List Nat),
      st.seq = done.length + 1 →
      st.events = blocksFrom cfg 1 done ++ openPart cfg st.seq cur →
      ∃ done2 cur2,
        (payloads.foldl (write_one cfg) st).seq = done2.length + 1 ∧
        (payloads.foldl (write_one cfg) st).events
          = blocksFrom cfg 1 done2 ++ openPart cfg (done2.length + 1) cur2 ∧
        done2.flatten ++ cur2 = done.flatten ++ cur ++ payloads := by
  intro payloads
  induction payloads with
  | nil =>
    intro st done cur h1 h2
    exact ⟨done, cur, h1, by rw [List.foldl_nil, h2, h1], by simp⟩
  | cons p rest ih =>
    intro st done cur h1 h2
    rw [List.foldl_cons]
    by_cases hrot : cfg.max_file_size ≠ 0 ∧ st.size + p > cfg.max_file_size
    · have s1 : (write_one cfg st p).seq = (done ++ [cur]).length + 1 := by
        rw [write_one_rot _ _ _ hrot]; simp [h1]
      have s2 : (write_one cfg st p).events
          = blocksFrom cfg 1 (done ++ [cur])
            ++ openPart cfg ((write_one cfg st p).seq) [p] := by
        rw [write_one_rot _ _ _ hrot]
        simp only
        rw [h2, h1]
        rw [show blocksFrom cfg 1 done ++ openPart cfg (done.length + 1) cur
              ++ [WEvent.closeShard (done.length + 1)]
            = blocksFrom cfg 1 done ++ shardBlock cfg (done.length + 1) cur from by
          simp [shardBlock, List.append_assoc]]
        rw [show blocksFrom cfg 1 done ++ shardBlock cfg (done.length + 1) cur
            = blocksFrom cfg 1 (done ++ [cur]) from by
          rw [blocksFrom_snoc]; rw [show 1 + done.length = done.length + 1 from by omega]]
        simp [openPart, List.append_assoc]
      obtain ⟨done2, cur2, g1, g2, g3⟩ := ih (write_one cfg st p) (done ++ [cur]) [p] s1 s2
      refine ⟨done2, cur2, g1, g2, ?_⟩
      rw [g3]
      simp [List.append_assoc]
    · have n1 : (write_one cfg st p).seq = done.length + 1 := by
        rw [write_one_no_rot _ _ _ hrot]; simpa using h1
      have n2 : (write_one cfg st p).events
          = blocksFrom cfg 1 done ++ openPart cfg ((write_one cfg st p).seq) (cur ++ [p]) := by
        rw [write_one_no_rot _ _ _ hrot]
        simp only
        rw [h2, openPart_snoc]
        simp [List.append_assoc]
      obtain ⟨done2, cur2, g1, g2, g3⟩ := ih (write_one cfg st p) done (cur ++ [p]) n1 n2
      refine ⟨done2, cur2, g1, g2, ?_⟩
      rw [g3]
      simp [List.append_assoc]

/-- Helper: resource-record writes keep one shard open. -/
theorem gauge_resource_writes (s : Nat) (xs : List Nat) :
    List.foldl gaugeStep (some 1) (xs.map (.writeResource s)) = some 1 := by
  induction xs with
  | nil => rfl
  | cons x tl ih => simpa [gaugeStep] using ih

/-- Helper: data-record writes keep one shard open. -/
theorem gauge_record_writes (s : Nat) (xs : List Nat) :
    List.foldl gaugeStep (some 1) (xs.map (.writeRecord s)) = some 1 := by
  induction xs with
  | nil => rfl
  | cons x tl ih => simpa [gaugeStep] using ih

/-- Helper: processing the open block of a shard leaves exactly one shard
open. -/
theorem gauge_openPart (cfg : WCfg) (s : Nat) (recs : List Nat) :
    List.foldl gaugeStep (some 0) (openPart cfg s recs) = some 1 := by
  simp only [openPart, List.foldl_append, List.foldl_cons, List.foldl_nil]
  rw [show gaugeStep (gaugeStep (some 0) (WEvent.openShard s)) (WEvent.writeWarcinfo s)
      = some 1 from rfl]
  rw [show List.foldl gaugeStep (some 1) (if cfg.resourceSizes ≠ [] then
      cfg.resourceSizes.map (WEvent.writeResource s) else []) = some 1 from by
    split
    · exact gauge_resource_writes s _
    · rfl]
  exact gauge_record_writes s recs

/-- Helper: one complete shard block opens and closes exactly once. -/
theorem gauge_shardBlock (cfg : WCfg) (s : Nat) (recs : List Nat) :
    List.foldl gaugeStep (some 0) (shardBlock cfg s recs) = some 0 := by
  simp only [shardBlock, List.foldl_append, gauge_openPart, List.foldl_cons, List.foldl_nil]
  rfl

/-- Helper: a sequence of complete shard blocks is well nested. -/
theorem gauge_blocksFrom (cfg : WCfg) (parts : List (List Nat)) :
    ∀ s, List.foldl gaugeStep (some 0) (blocksFrom cfg s parts) = some 0 := by
  induction parts with
  | nil => intro s; rfl
  | cons x tl ih =>
    intro s
    simp only [blocksFrom, List.foldl_append, gauge_shardBlock]
    exact ih (s + 1)

/-- Helper: opened shards of a concatenation. -/
theorem opensOf_append (a b : List WEvent) : opensOf (a ++ b) = opensOf a ++ opensOf b := by
  simp [opensOf]

/-- Helper: resource writes open nothing. -/
theorem opensOf_resource_writes (s : Nat) (xs : List Nat) :
    opensOf (xs.map (.writeResource s)) = [] := by
  induction xs with
  | nil => rfl
  | cons x tl ih => simp [opensOf] at ih ⊢

/-- Helper: record writes open nothing. -/
theorem opensOf_record_writes (s : Nat) (xs : List Nat) :
    opensOf (xs.map (.writeRecord s)) = [] := by
  induction xs with
  | nil => rfl
  | cons x tl ih => simp [opensOf] at ih ⊢

/-- Helper: one shard block opens exactly its own sequence number. -/
theorem opensOf_shardBlock (cfg : WCfg) (s : Nat) (recs : List Nat) :
    opensOf (shardBlock cfg s recs) = [s] := by
  simp only [shardBlock, openPart, List.append_assoc, opensOf_append]
  rw [show opensOf [WEvent.openShard s, WEvent.writeWarcinfo s] = [s] from rfl]
  rw [show opensOf (if cfg.resourceSizes ≠ [] then
      cfg.resourceSizes.map (WEvent.writeResource s) else []) = [] from by
    split
    · exact opensOf_resource_writes s _
    · rfl]
  rw [opensOf_record_writes]
  rfl

/-- Helper: consecutive shard blocks open the consecutive sequence numbers. -/
theorem opensOf_blocksFrom (cfg : WCfg) (parts : List (List Nat)) :
    ∀ s, opensOf (blocksFrom cfg s parts) = List.range' s parts.length := by
  induction parts with
  | nil => intro s; rfl
  | cons x tl ih =>
    intro s
    simp only [blocksFrom, opensOf_append, opensOf_shardBlock, ih (s + 1), List.length_cons]
    rw [List.range'_succ]
    rfl

/-- C2: a writer task partitions its payloads into shards: the trace is a
sequence of complete shard blocks whose sequence numbers are exactly 1, 2,
..., k (start at 1, increase by one per rotation), every shard begins with
its warcinfo record followed by the configured resource records, the trace
is well nested (each shard is closed before the next is opened, so exactly
one shard is open at a time and none at the end), and rotation happens
exactly when the current size plus the incoming record size exceeds
max_file_size. -/
theorem write_warc_records_shards (cfg : WCfg) (payloads : List Nat)
    (hmax : 0 < cfg.max_file_size) :
    (∃ parts : List (List Nat),
      parts ≠ [] ∧
      parts.flatten = payloads ∧
      (write_warc_records cfg payloads).events = blocksFrom cfg 1 parts ∧
      (write_warc_records cfg payloads).seq = parts.length ∧
      opensOf (write_warc_records cfg payloads).events = List.range' 1 parts.length) ∧
    wellFormed (write_warc_records cfg payloads).events = true ∧
    (∀ (st : WState) (added : Nat),
      ((rotate_files cfg st added).seq = st.seq + 1 ↔
        cfg.max_file_size < st.size + added) ∧
      (st.size + added ≤ cfg.max_file_size → rotate_files cfg st added = st)) := by
  obtain ⟨done2, cur2, g1, g2, g3⟩ :=
    foldl_write_shape cfg payloads
      ⟨1, (open_with_header cfg 1).1
            + (if cfg.resourceSizes ≠ [] then write_resource_records cfg 1 else (0, [])).1,
          (open_with_header cfg 1).2
            ++ (if cfg.resourceSizes ≠ [] then write_resource_records cfg 1 else (0, [])).2⟩
      [] [] rfl
      (by show (open_with_header cfg 1).2
              ++ (if cfg.resourceSizes ≠ [] then write_resource_records cfg 1 else (0, [])).2
            = blocksFrom cfg 1 [] ++ openPart cfg 1 []
          rw [rs_pair_snd]
          simp [open_with_header, openPart, blocksFrom])
  simp only [List.flatten_nil, List.nil_append] at g3
  have hw : write_warc_records cfg payloads =
      { seq := (payloads.foldl (write_one cfg)
          ⟨1, (open_with_header cfg 1).1
                + (if cfg.resourceSizes ≠ [] then write_resource_records cfg 1 else (0, [])).1,
              (open_with_header cfg 1).2
                ++ (if cfg.resourceSizes ≠ []
                    then write_resource_records cfg 1 else (0, [])).2⟩).seq,
        size := (payloads.foldl (write_one cfg)
          ⟨1, (open_with_header cfg 1).1
                + (if cfg.resourceSizes ≠ [] then write_resource_records cfg 1 else (0, [])).1,
              (open_with_header cfg 1).2
                ++ (if cfg.resourceSizes ≠ []
                    then write_resource_records cfg 1 else (0, [])).2⟩).size,
        events := (payloads.foldl (write_one cfg)
          ⟨1, (open_with_header cfg 1).1
                + (if cfg.resourceSizes ≠ [] then write_resource_records cfg 1 else (0, [])).1,
              (open_with_header cfg 1).2
                ++ (if cfg.resourceSizes ≠ []
                    then write_resource_records cfg 1 else (0, [])).2⟩).events
          ++ [WEvent.closeShard (payloads.foldl (write_one cfg)
          ⟨1, (open_with_header cfg 1).1
                + (if cfg.resourceSizes ≠ [] then write_resource_records cfg 1 else (0, [])).1,
              (open_with_header cfg 1).2
                ++ (if cfg.resourceSizes ≠ []
                    then write_resource_records cfg 1 else (0, [])).2⟩).seq] } := rfl
  have hev : (write_warc_records cfg payloads).events
      = blocksFrom cfg 1 (done2 ++ [cur2]) := by
    rw [hw]
    show _ ++ _ = _
    rw [g2, g1, List.append_assoc]
    rw [show openPart cfg (done2.length + 1) cur2 ++ [WEvent.closeShard (done2.length + 1)]
        = shardBlock cfg (done2.length + 1) cur2 from rfl]
    rw [blocksFrom_snoc]
    rw [show 1 + done2.length = done2.length + 1 from by omega]
  have hseq : (write_warc_records cfg payloads).seq = done2.length + 1 := by
    rw [hw]
    exact g1
  refine ⟨⟨done2 ++ [cur2], by simp, ?_, hev, ?_, ?_⟩, ?_, ?_⟩
  · rw [List.flatten_append]
    simpa using g3
  · rw [hseq]
    simp
  · rw [hev, opensOf_blocksFrom]
  · rw [wellFormed, hev, gauge_blocksFrom]
    simp
  · intro st added
    constructor
    · by_cases hc : cfg.max_file_size < st.size + added
      · rw [rotate_files, if_pos ⟨by omega, hc⟩]
        simpa using hc
      · rw [rotate_files, if_neg (by omega)]
        constructor
        · intro habs
          omega
        · intro habs
          exact absurd habs hc
    · intro hle
      rw [rotate_files, if_neg (by omega)]

/-- C2 witness: the shard theorem applied to a concrete configuration. -/
theorem write_warc_records_shards_witness :
    0 < wcfg100.max_file_size ∧
    wellFormed (write_warc_records wcfg100 [50, 60]).events = true :=
  ⟨by decide, (write_warc_records_shards wcfg100 [50, 60] (by decide)).2.1⟩

/-! ## Claim C1: limit bookkeeping in the CDX iterator -/

/-- Helper: a successful munge_fields produces exactly one object per value
row (the header row is not counted). -/
theorem munge_fields_count (fields : List String) :
    ∀ (lines : List (List String)) pr,
      munge_fields fields lines = some pr → pr.1.length = lines.length := by
  intro lines
  induction lines with
  | nil =>
    intro pr h
    simp only [munge_fields, Option.some.injEq] at h
    subst h
    rfl
  | cons l ls ih =>
    intro pr h
    simp only [munge_fields] at h
    cases hrow : munge_fields_row fields l with
    | none => rw [hrow] at h; simp at h
    | some rowpr =>
      rw [hrow] at h
      simp only [Option.bind_eq_bind, Option.some_bind] at h
      cases hrest : munge_fields fields ls with
      | none => rw [hrest] at h; simp at h
      | some restpr =>
        rw [hrest] at h
        simp only [Option.bind_eq_bind, Option.some_bind, Option.pure_def,
          Option.some.injEq] at h
        subst h
        simp [ih restpr hrest]

/-- Helper: for an ia body the normalized record count equals the number of
value rows, one less than the raw wire rows (the header row is consumed). -/
theorem cdx_to_json_ia_count (resp : CdxResp) (hdr : List String)
    (rows : List (List String)) (ret : List CaptureObj)
    (hbody : resp.body = .iaRows (hdr :: rows)) (hst : resp.status_code ≠ 404)
    (h : cdx_to_json resp = some ret) : ret.length = rows.length := by
  obtain ⟨sc, body⟩ := resp
  change body = _ at hbody
  change sc ≠ 404 at hst
  subst hbody
  unfold cdx_to_json at h
  rw [if_neg hst] at h
  change Option.map (fun x => x.1) (munge_fields hdr rows) = some ret at h
  cases hm : munge_fields hdr rows with
  | none => rw [hm] at h; simp at h
  | some pr =>
    rw [hm] at h
    simp only [Option.map_some', Option.some.injEq] at h
    subst h
    exact munge_fields_count hdr rows pr hm

/-- Helper: with a stored limit comparing equal to 0, get_for_iter reports
the last endpoint, yields nothing, and issues no HTTP fetch. -/
theorem get_for_iter_zero_limit (server : CdxServer) (nE : Nat) :
    ∀ (e p : Nat) (lim : Option Int), lim.getD (-1) = 0 →
      get_for_iter server nE e p lim = some ⟨.lastEndpoint, [], lim, false⟩ := by
  intro e p lim h
  by_cases h1 : nE ≤ e
  · simp [get_for_iter, h1]
  · simp [get_for_iter, h1, h]

/-- Helper: a successful get_for_iter either short-circuits with no records
and an unchanged limit, or fetches, parses, and subtracts the number of
normalized records from a present limit (only reachable when the stored
limit does not compare equal to 0). -/
theorem get_for_iter_cases (server : CdxServer) (nE e p : Nat) (lim : Option Int)
    (r : GFIResult) (h : get_for_iter server nE e p lim = some r) :
    ((r.status = .lastEndpoint ∨ r.status = .lastPage) ∧ r.objs = [] ∧ r.limit = lim) ∨
    (lim.getD (-1) ≠ 0 ∧
      ∃ ret, cdx_to_json (server e p lim) = some ret ∧ r.status = .ok ∧ r.objs = ret ∧
        r.limit = lim.map (fun l => l - (ret.length : Int))) := by
  unfold get_for_iter at h
  by_cases h1 : nE ≤ e
  · rw [if_pos h1] at h
    simp only [Option.some.injEq] at h
    subst h
    exact Or.inl ⟨Or.inl rfl, rfl, rfl⟩
  · rw [if_neg h1] at h
    by_cases h2 : lim.getD (-1) = 0
    · rw [if_pos h2] at h
      simp only [Option.some.injEq] at h
      subst h
      exact Or.inl ⟨Or.inl rfl, rfl, rfl⟩
    · rw [if_neg h2] at h
      by_cases h3 : (server e p lim).status_code = 400
      · rw [if_pos h3] at h
        simp only [Option.some.injEq] at h
        subst h
        exact Or.inl ⟨Or.inr rfl, rfl, rfl⟩
      · rw [if_neg h3] at h
        by_cases h4 : (server e p lim).body = .emptyText
        · rw [if_pos h4] at h
          simp only [Option.some.injEq] at h
          subst h
          exact Or.inl ⟨Or.inr rfl, rfl, rfl⟩
        · rw [if_neg h4] at h
          cases hj : cdx_to_json (server e p lim) with
          | none => rw [hj] at h; simp at h
          | some ret =>
            rw [hj] at h
            simp only [Option.some.injEq] at h
            subst h
            exact Or.inr ⟨h2, ret, rfl, rfl, rfl, rfl⟩


/-- Helper: the get_more step on a last-endpoint answer. -/
theorem get_more_step_lastEndpoint (server : CdxServer) (nE n : Nat) (st : IterState)
    (r : GFIResult) (hg : get_for_iter server nE st.endpoint st.page st.limit = some r)
    (hs : r.status = .lastEndpoint) :
    get_more server nE (n + 1) st =
      some { st with limit := r.limit,
                     fetches := st.fetches + (if r.fetched then 1 else 0) } := by
  obtain ⟨rs, ro, rl, rf⟩ := r
  cases hs
  rw [get_more, hg]

/-- Helper: the get_more step on a last-page answer. -/
theorem get_more_step_lastPage (server : CdxServer) (nE n : Nat) (st : IterState)
    (r : GFIResult) (hg : get_for_iter server nE st.endpoint st.page st.limit = some r)
    (hs : r.status = .lastPage) :
    get_more server nE (n + 1) st =
      get_more server nE n
        { st with endpoint := st.endpoint + 1, page := 0, limit := r.limit,
                  fetches := st.fetches + (if r.fetched then 1 else 0) } := by
  obtain ⟨rs, ro, rl, rf⟩ := r
  cases hs
  rw [get_more, hg]

/-- Helper: the get_more step on a successful page. -/
theorem get_more_step_ok (server : CdxServer) (nE n : Nat) (st : IterState)
    (r : GFIResult) (hg : get_for_iter server nE st.endpoint st.page st.limit = some r)
    (hs : r.status = .ok) :
    get_more server nE (n + 1) st =
      get_more server nE n
        { st with page := st.page + 1, objs := st.objs ++ r.objs, limit := r.limit,
                  fetches := st.fetches + (if r.fetched then 1 else 0) } := by
  obtain ⟨rs, ro, rl, rf⟩ := r
  cases hs
  rw [get_more, hg]

/-- Helper: when every response honors the limit parameter it was sent, the
iterator maintains stored limit = N minus records accumulated, and the
accumulated records never exceed N. -/
theorem get_more_invariant (server : CdxServer) (nE N : Nat)
    (hhonor : ∀ (e p : Nat) (l : Int) (ret : List CaptureObj),
      cdx_to_json (server e p (some l)) = some ret → (ret.length : Int) ≤ max l 0) :
    ∀ (fuel : Nat) (st st2 : IterState),
      st.limit = some ((N : Int) - st.objs.length) → st.objs.length ≤ N →
      get_more server nE fuel st = some st2 →
      st2.limit = some ((N : Int) - st2.objs.length) ∧ st2.objs.length ≤ N := by
  intro fuel
  induction fuel with
  | zero =>
    intro st st2 h1 h2 h3
    simp only [get_more, Option.some.injEq] at h3
    subst h3
    exact ⟨h1, h2⟩
  | succ n ih =>
    intro st st2 h1 h2 h3
    cases hg : get_for_iter server nE st.endpoint st.page st.limit with
    | none => rw [get_more, hg] at h3; simp at h3
    | some r =>
      rcases get_for_iter_cases server nE st.endpoint st.page st.limit r hg with
        ⟨hs, hobjs, hlim⟩ | ⟨hne, ret, hjson, hs, hobjs, hlim⟩
      · rcases hs with hs | hs
        · rw [get_more_step_lastEndpoint server nE n st r hg hs] at h3
          simp only [Option.some.injEq] at h3
          subst h3
          exact ⟨by simpa [hlim] using h1, by simpa using h2⟩
        · rw [get_more_step_lastPage server nE n st r hg hs] at h3
          exact ih _ _ (by simpa [hlim] using h1) (by simpa using h2) h3
      · rw [get_more_step_ok server nE n st r hg hs] at h3
        have hlen : (ret.length : Int) ≤ (N : Int) - st.objs.length := by
          have hh := hhonor st.endpoint st.page ((N : Int) - st.objs.length) ret
            (by rw [← h1]; exact hjson)
          have hne2 : (N : Int) - st.objs.length ≠ 0 := by
            intro habs
            rw [h1, habs] at hne
            simp at hne
          have hcast : (st.objs.length : Int) ≤ (N : Int) := by exact_mod_cast h2
          have hpos : (0 : Int) < (N : Int) - st.objs.length := by omega
          rw [max_eq_left (le_of_lt hpos)] at hh
          exact hh
        refine ih _ _ ?_ ?_ h3
        · simp only [hlim, h1, hobjs, Option.map_some']
          simp only [List.length_append]
          congr 1
          push_cast
          ring
        · simp only [hobjs, List.length_append]
          have hcast : (st.objs.length : Int) ≤ (N : Int) := by exact_mod_cast h2
          have hfin : (st.objs.length : Int) + ret.length ≤ (N : Int) := by omega
          exact_mod_cast hfin

/-- C1 (amended): provided every server response carries at most the number
of records allowed by the limit parameter it was sent, an iteration created
with limit N yields at most N records; the short-circuit happens exactly
when the remaining limit equals 0 (reporting exhaustion with no HTTP
fetch); and the decrement counts normalized records, excluding the ia
header row, not raw wire rows.  Without the honoring assumption the bound
fails and a negative remaining limit does not short-circuit (see the
counterexample). -/
theorem iter_limit_amended (server : CdxServer) (nE N fuel : Nat) (hN : 1 ≤ N)
    (hhonor : ∀ (e p : Nat) (l : Int) (ret : List CaptureObj),
      cdx_to_json (server e p (some l)) = some ret → (ret.length : Int) ≤ max l 0) :
    (∀ st : IterState, run_iter server nE (some (N : Int)) fuel = some st →
      st.objs.length ≤ N) ∧
    (∀ (e p : Nat) (lim : Option Int), lim.getD (-1) = 0 →
      get_for_iter server nE e p lim = some ⟨.lastEndpoint, [], lim, false⟩) ∧
    (∀ (resp : CdxResp) (hdr : List String) (rows : List (List String))
        (ret : List CaptureObj),
      resp.body = .iaRows (hdr :: rows) → resp.status_code ≠ 404 →
      cdx_to_json resp = some ret → ret.length = rows.length) := by
  refine ⟨?_, get_for_iter_zero_limit server nE,
    fun resp hdr rows ret hb hs hj => cdx_to_json_ia_count resp hdr rows ret hb hs hj⟩
  intro st hrun
  unfold run_iter at hrun
  exact (get_more_invariant server nE N hhonor fuel _ st (by simp) (by simp) hrun).2

/-- C1 witness: the amended theorem applied to a concrete server whose
answers are empty. -/
theorem iter_limit_amended_witness :
    ((run_iter emptyServer 1 (some 1) 3).map (fun st => st.objs.length) = some 0) ∧
    get_for_iter emptyServer 1 0 0 (some 0) = some ⟨.lastEndpoint, [], some 0, false⟩ := by
  have h := iter_limit_amended emptyServer 1 1 3 (by decide)
    (by intro e p l ret hj
        simp [cdx_to_json, emptyServer] at hj)
  exact ⟨by decide, h.2.1 0 0 (some 0) (by decide)⟩

/-- C1 counterexample: against a server whose first page carries two records
although the limit parameter was 1 (paged CDX endpoints return whole
pages), the iteration with limit 1 yields 2 records, exceeding N, and after
the limit has gone negative (-1, which is ≤ 0) get_for_iter still issues
another HTTP fetch instead of reporting exhaustion. -/
theorem iter_limit_counterexample :
    ((run_iter twoRecordServer 1 (some 1) 5).map
        (fun st => (st.objs.length, st.fetches)) = some (2, 2)) ∧
    ¬ ((2 : Nat) ≤ 1) ∧
    get_for_iter twoRecordServer 1 0 1 (some (-1)) =
      some ⟨.lastPage, [], some (-1), true⟩ ∧
    (-1 : Int) ≤ 0 := by
  refine ⟨by decide, by decide, by decide, by decide⟩
